import Mathlib

/-!
Verification development for the 3-band audio equalizer core `apply_eq`
in `src/simple_eq.py`.

The core pipeline (lines 145-164 of the source) is:

  nyquist = sr / 2
  b_low,  a_low  = signal.butter(4, min(250, nyquist-1) / nyquist, btype='low')
  b_mid,  a_mid  = signal.butter(4, [max(250, 1)/nyquist, min(4000, nyquist-1)/nyquist], btype='band')
  b_high, a_high = signal.butter(4, max(4000, 1) / nyquist, btype='high')
  low_band  = signal.filtfilt(b_low,  a_low,  audio) * (10 ** (low_gain / 20))
  mid_band  = signal.filtfilt(b_mid,  a_mid,  audio) * (10 ** (mid_gain / 20))
  high_band = signal.filtfilt(b_high, a_high, audio) * (10 ** (high_gain / 20))
  processed = low_band + mid_band + high_band
  max_val = np.max(np.abs(processed))
  if max_val > 1.0: processed = processed / max_val
  return processed

Modelling decisions, all driven by the source:

* Sample buffers are `List α` over a `LinearOrderedField α`; theorems about
  dB-to-linear conversion (`10 ** (g / 20)`) are stated at `α = ℝ`, and
  executable witnesses are run at `α = ℚ`.  Float arithmetic is modelled as
  exact field arithmetic, following the spec's "up to floating-point epsilon"
  convention.
* Python exceptions raised inside `apply_eq` become `Except EqError`:
  - `EqError.invalidWn` is scipy's
    `ValueError: Digital filter critical frequencies must be 0 < Wn < 1`,
    raised by `signal.butter` when a normalized cutoff leaves (0, 1);
  - `EqError.inputTooShort p` is scipy's
    `ValueError: The length of the input vector x must be greater than padlen`,
    raised by `signal.filtfilt` when `len(x) <= p` with
    `p = 3 * max(len(a), len(b))` (the default `padlen`);
  - `EqError.emptyMax` is numpy's
    `ValueError: zero-size array to reduction operation maximum`,
    raised by `np.max` on an empty array.
* `signal.butter` returns transcendental coefficients (the bilinear transform
  of an analog Butterworth prototype); no claim depends on their numeric
  values, so the three designed filters appear as parameters
  (`DesignedFilter`, carrying the `b`/`a` taps and the steady-state vector
  `zi` that `filtfilt` obtains from `lfilter_zi`), while the cutoff
  validation that `butter` performs on its `Wn` argument is embedded
  concretely (`butterCheck`).  Theorems quantify over the designed filters,
  so they hold in particular for the actual Butterworth coefficients
  (order 4: 5 taps for low/high, 9 taps for band, `a[0] = 1`).
* `signal.filtfilt` is embedded structurally after scipy's `method='pad'`
  path: odd reflection padding of length `3 * max(len(a), len(b))`, a forward
  pass and a reversed pass of the direct-form-II-transposed `lfilter` with
  initial state `zi * x[0]` resp. `zi * y[-1]`, then slicing the padding off.
* The frame claim (the caller's numpy array is never mutated) is settled on a
  store-passing variant `applyEqSt` in which every numpy operation of the
  source is modelled as allocating a fresh array in an explicit array store,
  mirroring that the source uses only out-of-place operations (`filtfilt`,
  `*`, `+`, `np.abs`, `/`) and never `*=`, `+=`, `out=` or slice assignment.
-/

namespace SimpleEq

set_option maxRecDepth 10000
set_option linter.unusedSectionVars false

/-- Python exceptions that can escape `apply_eq`, as a typed error value. -/
inductive EqError where
  | invalidWn : EqError
  | inputTooShort (padlen : ℕ) : EqError
  | emptyMax : EqError
  deriving DecidableEq

/-- Output of one `signal.butter` call: feedforward taps `b`, feedback taps
`a`, and the `lfilter_zi` steady state `zi` that `filtfilt` derives from
them.  The numeric values are transcendental, so they are parameters of the
development; `butter`'s validation of its cutoff argument is `butterCheck`. -/
structure DesignedFilter (α : Type) where
  b : List α
  a : List α
  zi : List α
  deriving DecidableEq

variable {α : Type} [LinearOrderedField α]

/-- Scipy `signal.butter` (digital design) raises
`ValueError: Digital filter critical frequencies must be 0 < Wn < 1`
unless every normalized critical frequency lies strictly between 0 and 1. -/
def butterCheck (wn : List α) : Except EqError Unit :=
  if ∀ w ∈ wn, 0 < w ∧ w < 1 then Except.ok () else Except.error EqError.invalidWn

/-- One step of scipy's direct-form-II-transposed `lfilter`: given the
normalized padded taps `bp`, `ap`, the state vector `z` and the input sample
`x`, produce the output sample and the next state. -/
def df2tStep (bp ap z : List α) (x : α) : α × List α :=
  let y := bp.getD 0 0 * x + z.getD 0 0
  (y, (List.range z.length).map fun i =>
    bp.getD (i + 1) 0 * x +
      (if i + 1 < z.length then z.getD (i + 1) 0 else 0) -
      ap.getD (i + 1) 0 * y)

/-- The sample loop of scipy `lfilter`, threading the filter state. -/
def lfilterGo (bp ap : List α) : List α → List α → List α
  | _, [] => []
  | z, v :: vs =>
    let s := df2tStep bp ap z v
    s.1 :: lfilterGo bp ap s.2 vs

/-- Scipy `signal.lfilter b a x zi`: taps are normalized by `a[0]` and padded
to a common length, then the direct-form-II-transposed loop runs from the
initial state `zi`.  (Butter output always has `a[0] = 1`, so the `getD`
default for `a[0]` is never exercised by the pipeline.) -/
def lfilter (b a x zi : List α) : List α :=
  let a0 := a.getD 0 1
  let n := max b.length a.length
  let bp := (List.range n).map fun k => b.getD k 0 / a0
  let ap := (List.range n).map fun k => a.getD k 0 / a0
  lfilterGo bp ap zi x

/-- Scipy `odd_ext x n`: reflect `n` samples around each endpoint
(`2*x[0] - x[n:0:-1]` on the left, `2*x[-1] - x[-2:-n-2:-1]` on the right).
`filtfilt` only calls it with `n < x.length`. -/
def oddExt (x : List α) (n : ℕ) : List α :=
  if n = 0 then x else
  match x with
  | [] => []
  | x0 :: xs =>
    let xe := (x0 :: xs).getLastD x0
    let left := (((x0 :: xs).drop 1).take n).reverse.map fun v => 2 * x0 - v
    let right := (((x0 :: xs).reverse.drop 1).take n).map fun v => 2 * xe - v
    left ++ (x0 :: xs) ++ right

/-- Scipy `signal.filtfilt b a x` with the default arguments the source uses
(`method='pad'`, `padtype='odd'`, `padlen=None`, hence
`padlen = 3 * max(len(a), len(b))`): raise if the input is not longer than
`padlen`, otherwise odd-extend, run `lfilter` forward from state `zi * x[0]`,
run it backward from state `zi * y[-1]`, and slice the padding off. -/
def filtfilt (f : DesignedFilter α) (x : List α) : Except EqError (List α) :=
  let padlen := 3 * max f.a.length f.b.length
  if x.length ≤ padlen then Except.error (EqError.inputTooShort padlen) else
    let ext := oddExt x padlen
    let x0 := ext.getD 0 0
    let y1 := lfilter f.b f.a ext (f.zi.map fun z => z * x0)
    let y0 := y1.getLastD 0
    let y2 := lfilter f.b f.a y1.reverse (f.zi.map fun z => z * y0)
    Except.ok (((y2.reverse).drop padlen).take (y2.reverse.length - padlen - padlen))

/-- Elementwise scaling of a band buffer, `array * scalar` in the source. -/
def gainScale (xs : List α) (g : α) : List α := xs.map fun v => v * g

/-- The source's `low_band + mid_band + high_band` (numpy elementwise sums of
equal-length arrays). -/
def mix3 (u v w : List α) : List α :=
  List.zipWith (fun p q => p + q) (List.zipWith (fun p q => p + q) u v) w

/-- Numpy `np.max`: the maximum of a nonempty array, and the
`zero-size array to reduction operation maximum` error on an empty one. -/
def npMax (xs : List α) : Except EqError α :=
  match xs with
  | [] => Except.error EqError.emptyMax
  | v :: vs => Except.ok (vs.foldl max v)

/-- The normalization tail of `apply_eq` (source lines 160-164):
`max_val = np.max(np.abs(processed)); if max_val > 1.0: processed = processed / max_val`. -/
def normalize (xs : List α) : Except EqError (List α) :=
  match npMax (xs.map fun v => |v|) with
  | Except.error e => Except.error e
  | Except.ok max_val =>
    if 1 < max_val then Except.ok (xs.map fun v => v / max_val)
    else Except.ok xs

/-- Source lines 146-159 of `apply_eq`: the three `butter` cutoff
validations in program order (with the exact cutoff expressions of the
source), the three `filtfilt` band passes in program order, the per-band
gain scaling, and the mix — everything before the normalization step.
The gains enter here as the already-converted linear multipliers. -/
def mixedBuffer (fL fM fH : DesignedFilter α) (audio : List α)
    (sr gL gM gH : α) : Except EqError (List α) :=
  let nyquist := sr / 2
  match butterCheck [min 250 (nyquist - 1) / nyquist] with
  | Except.error e => Except.error e
  | Except.ok _ =>
  match butterCheck [max 250 1 / nyquist, min 4000 (nyquist - 1) / nyquist] with
  | Except.error e => Except.error e
  | Except.ok _ =>
  match butterCheck [max 4000 1 / nyquist] with
  | Except.error e => Except.error e
  | Except.ok _ =>
  match filtfilt fL audio with
  | Except.error e => Except.error e
  | Except.ok yL =>
  let low_band := gainScale yL gL
  match filtfilt fM audio with
  | Except.error e => Except.error e
  | Except.ok yM =>
  let mid_band := gainScale yM gM
  match filtfilt fH audio with
  | Except.error e => Except.error e
  | Except.ok yH =>
  let high_band := gainScale yH gH
  Except.ok (mix3 low_band mid_band high_band)

/-- The whole of `apply_eq` over an arbitrary linear ordered field, with the
designed filters as parameters and the gains given as linear multipliers:
the pre-normalization pipeline followed by the normalization step. -/
def applyEqCore (fL fM fH : DesignedFilter α) (audio : List α)
    (sr gL gM gH : α) : Except EqError (List α) :=
  match mixedBuffer fL fM fH audio sr gL gM gH with
  | Except.error e => Except.error e
  | Except.ok processed => normalize processed

/-- The source's dB-to-linear conversion `10 ** (gain / 20)`. -/
noncomputable def dbToLin (g : ℝ) : ℝ := (10 : ℝ) ^ (g / 20)

/-- `apply_eq` itself, at `ℝ`, taking the three gains in decibels exactly as
the source does. -/
noncomputable def apply_eq (fL fM fH : DesignedFilter ℝ) (audio : List ℝ)
    (sr low_gain mid_gain high_gain : ℝ) : Except EqError (List ℝ) :=
  applyEqCore fL fM fH audio sr
    (dbToLin low_gain) (dbToLin mid_gain) (dbToLin high_gain)

/-! ### Store-passing model of the numpy array operations

`apply_eq` receives a numpy array owned by the caller.  To make mutation
representable (and so provable absent), the pipeline is restated over an
explicit store of allocated arrays: the caller's buffer is an index into the
store, every numpy operation of the source allocates a fresh array (the
source uses only the out-of-place operations `filtfilt`, `*`, `+`, `np.abs`,
`/`), and an in-place operation would have to overwrite an existing index. -/

/-- The numpy heap: every array allocated so far.  The caller's `audio`
buffer is one of the entries. -/
structure NpState (α : Type) where
  arrays : List (List α)

/-- Read the array stored at index `i`. -/
def readArr (s : NpState α) (i : ℕ) : List α := s.arrays.getD i []

/-- Allocate a fresh array, returning the new store and the new index. -/
def alloc (s : NpState α) (v : List α) : NpState α × ℕ :=
  (⟨s.arrays ++ [v]⟩, s.arrays.length)

/-- One source line `band = signal.filtfilt(b, a, audio) * (10 ** (g/20))`
over the store: `filtfilt` reads the source array and allocates its result,
the scalar multiply allocates another array. -/
def filtGainSt (f : DesignedFilter α) (g : α) (s : NpState α) (src : ℕ) :
    NpState α × Except EqError ℕ :=
  match filtfilt f (readArr s src) with
  | Except.error e => (s, Except.error e)
  | Except.ok y =>
    let s1 := alloc s y
    let s2 := alloc s1.1 (gainScale (readArr s1.1 s1.2) g)
    (s2.1, Except.ok s2.2)

/-- The normalization tail over the store: `np.abs` allocates, `np.max`
produces a scalar, and the division (taken only when the peak exceeds 1)
allocates the rescaled array; otherwise the mixed array's index is returned
as is.  No branch writes to an existing index. -/
def normalizeSt (s : NpState α) (src : ℕ) : NpState α × Except EqError ℕ :=
  let s1 := alloc s ((readArr s src).map fun v => |v|)
  match npMax (readArr s1.1 s1.2) with
  | Except.error e => (s1.1, Except.error e)
  | Except.ok max_val =>
    if 1 < max_val then
      let s2 := alloc s1.1 ((readArr s src).map fun v => v / max_val)
      (s2.1, Except.ok s2.2)
    else (s1.1, Except.ok src)

/-- The whole of `apply_eq` over the explicit array store: the caller's
buffer lives at `audioRef`, and each numpy operation allocates.  The returned
value is the index of the output array (or the error that escaped). -/
def applyEqSt (fL fM fH : DesignedFilter α) (sr gL gM gH : α)
    (s : NpState α) (audioRef : ℕ) : NpState α × Except EqError ℕ :=
  let nyquist := sr / 2
  match butterCheck [min 250 (nyquist - 1) / nyquist] with
  | Except.error e => (s, Except.error e)
  | Except.ok _ =>
  match butterCheck [max 250 1 / nyquist, min 4000 (nyquist - 1) / nyquist] with
  | Except.error e => (s, Except.error e)
  | Except.ok _ =>
  match butterCheck [max 4000 1 / nyquist] with
  | Except.error e => (s, Except.error e)
  | Except.ok _ =>
  let r1 := filtGainSt fL gL s audioRef
  match r1.2 with
  | Except.error e => (r1.1, Except.error e)
  | Except.ok lowRef =>
  let r2 := filtGainSt fM gM r1.1 audioRef
  match r2.2 with
  | Except.error e => (r2.1, Except.error e)
  | Except.ok midRef =>
  let r3 := filtGainSt fH gH r2.1 audioRef
  match r3.2 with
  | Except.error e => (r3.1, Except.error e)
  | Except.ok highRef =>
  let s4 := alloc r3.1 (List.zipWith (fun p q => p + q) (readArr r3.1 lowRef) (readArr r3.1 midRef))
  let s5 := alloc s4.1 (List.zipWith (fun p q => p + q) (readArr s4.1 s4.2) (readArr s4.1 highRef))
  normalizeSt s5.1 s5.2

/-! ### Concrete fixtures for executable witnesses

The designed filters of the actual pipeline have transcendental tap values,
so the executable witnesses run the pipeline at `ℚ` on placeholder filters:
`wFilt` is a single-tap passthrough (the smallest list shape the embedding
accepts, `padlen = 3`), and `wFilt5`/`wFilt9` have exactly the tap-list
shapes that `butter` order 4 produces for low/high (5 taps) and band
(9 taps) designs. -/

/-- Single-tap passthrough filter over `ℚ` for concrete witness runs. -/
def wFilt : DesignedFilter ℚ := ⟨[1], [1], []⟩

/-- A filter with the 5-tap shape of `butter(4, w)` low/high output. -/
def wFilt5 : DesignedFilter ℚ := ⟨[1, 0, 0, 0, 0], [1, 0, 0, 0, 0], [0, 0, 0, 0]⟩

/-- A filter with the 9-tap shape of `butter(4, [w1, w2], btype='band')` output. -/
def wFilt9 : DesignedFilter ℚ :=
  ⟨[1, 0, 0, 0, 0, 0, 0, 0, 0], [1, 0, 0, 0, 0, 0, 0, 0, 0], [0, 0, 0, 0, 0, 0, 0, 0]⟩

/-- Single-tap passthrough filter over `ℝ`, for witnesses that involve the
dB-to-linear conversion. -/
def wFiltR : DesignedFilter ℝ := ⟨[1], [1], []⟩

/-- A filter over `ℝ` with the 5-tap shape of `butter(4, w)` low/high output. -/
def wFilt5R : DesignedFilter ℝ := ⟨[1, 0, 0, 0, 0], [1, 0, 0, 0, 0], [0, 0, 0, 0]⟩

/-! ### Length preservation through the stages -/

theorem lfilterGo_length (bp ap z x : List α) :
    (lfilterGo bp ap z x).length = x.length := by
  induction x generalizing z with
  | nil => rfl
  | cons v vs ih => simp [lfilterGo, ih]

theorem lfilter_length (b a x zi : List α) :
    (lfilter b a x zi).length = x.length := by
  simp [lfilter, lfilterGo_length]

theorem oddExt_length (x : List α) (n : ℕ) (h : n < x.length) :
    (oddExt x n).length = x.length + 2 * n := by
  unfold oddExt
  rcases Nat.eq_zero_or_pos n with h0 | h0
  · simp [h0]
  · have hne : n ≠ 0 := Nat.pos_iff_ne_zero.mp h0
    cases x with
    | nil => simp at h
    | cons x0 xs =>
      simp only [if_neg hne, List.length_append, List.length_map, List.length_reverse,
        List.length_take, List.length_drop, List.length_cons]
      simp only [List.length_cons] at h
      omega

theorem filtfilt_ok_length (f : DesignedFilter α) (x y : List α)
    (h : filtfilt f x = Except.ok y) : y.length = x.length := by
  unfold filtfilt at h
  by_cases hlen : x.length ≤ 3 * max f.a.length f.b.length
  · rw [if_pos hlen] at h
    cases h
  · rw [if_neg hlen] at h
    simp only [Except.ok.injEq] at h
    subst h
    have hext : (oddExt x (3 * max f.a.length f.b.length)).length
        = x.length + 2 * (3 * max f.a.length f.b.length) :=
      oddExt_length x _ (Nat.lt_of_not_le hlen)
    simp [List.length_take, List.length_drop, List.length_reverse, lfilter_length, hext]
    omega

theorem gainScale_length (xs : List α) (g : α) : (gainScale xs g).length = xs.length := by
  simp [gainScale]

theorem mix3_length (u v w : List α) :
    (mix3 u v w).length = min (min u.length v.length) w.length := by
  simp [mix3, List.length_zipWith]

theorem normalize_ok_length (xs ys : List α) (h : normalize xs = Except.ok ys) :
    ys.length = xs.length := by
  cases xs with
  | nil => simp [normalize, npMax] at h
  | cons v vs =>
    unfold normalize npMax at h
    simp only [List.map_cons] at h
    split at h
    · simp only [Except.ok.injEq] at h
      subst h
      simp
    · simp only [Except.ok.injEq] at h
      subst h
      rfl

theorem mixedBuffer_ok_length (fL fM fH : DesignedFilter α) (audio m : List α)
    (sr gL gM gH : α)
    (h : mixedBuffer fL fM fH audio sr gL gM gH = Except.ok m) :
    m.length = audio.length := by
  simp only [mixedBuffer] at h
  repeat' split at h
  all_goals try cases h
  rename_i x2 yL hL x1 yM hM x0 yH hH
  have l1 := filtfilt_ok_length fL audio yL hL
  have l2 := filtfilt_ok_length fM audio yM hM
  have l3 := filtfilt_ok_length fH audio yH hH
  simp [mix3_length, gainScale_length, l1, l2, l3]

/-- C1. For every input buffer, sample rate and gain multipliers on which
the pipeline succeeds, the output buffer has exactly as many samples as the
input buffer: length is preserved through filtering, gain, mixing and
normalization. -/
theorem applyEq_length_preserved (fL fM fH : DesignedFilter α) (audio out : List α)
    (sr gL gM gH : α)
    (h : applyEqCore fL fM fH audio sr gL gM gH = Except.ok out) :
    out.length = audio.length := by
  unfold applyEqCore at h
  split at h
  · cases h
  · rename_i processed hp
    exact (normalize_ok_length processed out h).trans
      (mixedBuffer_ok_length fL fM fH audio processed sr gL gM gH hp)

/-! ### The peak bound and the normalization contract -/

theorem foldl_max_le_self (l : List α) (i : α) : i ≤ l.foldl max i := by
  induction l generalizing i with
  | nil => exact le_refl i
  | cons a l ih => exact le_trans (le_max_left i a) (ih (max i a))

theorem foldl_max_le_of_mem {l : List α} {x : α} (i : α) (hx : x ∈ l) :
    x ≤ l.foldl max i := by
  induction l generalizing i with
  | nil => cases hx
  | cons a l ih =>
    rcases List.mem_cons.mp hx with rfl | hx2
    · exact le_trans (le_max_right i x) (foldl_max_le_self l (max i x))
    · exact ih _ hx2

theorem foldl_max_mem {l : List α} (i : α) : l.foldl max i = i ∨ l.foldl max i ∈ l := by
  induction l generalizing i with
  | nil => left; rfl
  | cons a l ih =>
    rcases ih (max i a) with h | h
    · rcases max_choice i a with hm | hm
      · left; rw [List.foldl_cons, h, hm]
      · right; rw [List.foldl_cons, h, hm]; exact List.mem_cons_self a l
    · right; exact List.mem_cons_of_mem a h

theorem npMax_ok (xs : List α) (m : α) (h : npMax xs = Except.ok m) :
    (∀ x ∈ xs, x ≤ m) ∧ m ∈ xs := by
  cases xs with
  | nil => cases h
  | cons v vs =>
    simp only [npMax, Except.ok.injEq] at h
    subst h
    constructor
    · intro x hx
      rcases List.mem_cons.mp hx with rfl | hx2
      · exact foldl_max_le_self vs x
      · exact foldl_max_le_of_mem v hx2
    · rcases foldl_max_mem (l := vs) v with h | h
      · rw [h]; exact List.mem_cons_self v vs
      · exact List.mem_cons_of_mem v h

theorem normalize_ok_peak (xs ys : List α) (h : normalize xs = Except.ok ys) :
    ∀ y ∈ ys, |y| ≤ 1 := by
  unfold normalize at h
  split at h
  · cases h
  · rename_i m hm
    have spec := npMax_ok _ m hm
    split at h
    · rename_i hgt
      cases h
      intro y hy
      simp only [List.mem_map] at hy
      obtain ⟨x, hx, rfl⟩ := hy
      have hxm : |x| ≤ m := spec.1 _ (List.mem_map_of_mem _ hx)
      have hmpos : (0 : α) < m := lt_trans zero_lt_one hgt
      rw [abs_div, abs_of_pos hmpos]
      exact (div_le_one hmpos).mpr (le_trans hxm (le_refl m))
    · rename_i hle
      cases h
      intro y hy
      exact le_trans (spec.1 _ (List.mem_map_of_mem _ hy)) (le_of_not_lt hle)

/-- C2. For every input on which the pipeline succeeds, every output sample
has absolute value at most 1 (exactly 1.0 in exact arithmetic; the source's
normalization step guarantees the bound). -/
theorem applyEq_peak_le_one (fL fM fH : DesignedFilter α) (audio out : List α)
    (sr gL gM gH : α)
    (h : applyEqCore fL fM fH audio sr gL gM gH = Except.ok out) :
    ∀ y ∈ out, |y| ≤ 1 := by
  unfold applyEqCore at h
  split at h
  · cases h
  · exact normalize_ok_peak _ _ h

/-- C3. The normalization step computes the peak as the maximum absolute
sample of the mixed buffer (an attained upper bound of the absolute values);
if the peak exceeds 1 every sample is divided by that one global scalar, and
otherwise the buffer is returned unchanged. -/
theorem normalize_peak_spec (xs : List α) (hne : xs ≠ []) :
    ∃ m, npMax (xs.map fun v => |v|) = Except.ok m
      ∧ (∀ x ∈ xs, |x| ≤ m)
      ∧ (∃ x ∈ xs, |x| = m)
      ∧ (1 < m → normalize xs = Except.ok (xs.map fun v => v / m))
      ∧ (¬ 1 < m → normalize xs = Except.ok xs) := by
  cases xs with
  | nil => exact absurd rfl hne
  | cons v vs =>
    have hmax : npMax ((v :: vs).map fun w => |w|)
        = Except.ok ((vs.map fun w => |w|).foldl max |v|) := rfl
    have spec := npMax_ok _ _ hmax
    refine ⟨(vs.map fun w => |w|).foldl max |v|, hmax, ?_, ?_, ?_, ?_⟩
    · intro x hx
      exact spec.1 _ (List.mem_map_of_mem _ hx)
    · have hmem := spec.2
      simp only [List.mem_map] at hmem
      obtain ⟨x, hx, hxe⟩ := hmem
      exact ⟨x, hx, hxe⟩
    · intro hgt
      unfold normalize
      rw [hmax]
      simp [if_pos hgt]
    · intro hle
      unfold normalize
      rw [hmax]
      simp [if_neg hle]

/-! ### The unclamped high cutoff and the too-short input -/

/-- C4.  Refuted as stated, exhibiting the code bug: the source clamps the
low cutoff and the upper band edge below Nyquist (`min(.., nyquist-1)`), but
passes the high-pass cutoff as `max(4000, 1) / nyquist` with no clamp, so at
`sample_rate = 4000` the normalized high cutoff is `2`, `butter` raises its
untyped `ValueError` (`EqError.invalidWn`), and the pipeline fails for every
input buffer and every gain setting — it neither returns length-preserving
output nor raises a `ConfigurationError`, and the mid band has not collapsed
(its edges `0.125 < 0.9995` are strictly ordered). -/
theorem applyEq_sr4000_unclamped (fL fM fH : DesignedFilter ℝ) (audio : List ℝ)
    (g1 g2 g3 : ℝ) :
    max (4000 : ℝ) 1 / ((4000 : ℝ) / 2) = 2
    ∧ max (250 : ℝ) 1 / ((4000 : ℝ) / 2) < min (4000 : ℝ) ((4000 : ℝ) / 2 - 1) / ((4000 : ℝ) / 2)
    ∧ apply_eq fL fM fH audio 4000 g1 g2 g3 = Except.error EqError.invalidWn := by
  refine ⟨by norm_num, by norm_num, ?_⟩
  norm_num [apply_eq, applyEqCore, mixedBuffer, butterCheck]

theorem filtfilt_short5 (f : DesignedFilter α) (x : List α) (hb : f.b.length = 5)
    (ha : f.a.length = 5) (h : x.length ≤ 15) :
    filtfilt f x = Except.error (EqError.inputTooShort 15) := by
  unfold filtfilt
  rw [ha, hb]
  norm_num [h]

/-- C5.  A buffer shorter than `filtfilt`'s default padding requirement
(`padlen = 3 * max(len(a), len(b))`, which is 15 for the 5-tap filters that
`butter(4, ..)` produces for the low band the source filters first) makes the
pipeline fail with the distinguished too-short error — scipy's
`ValueError: The length of the input vector x must be greater than padlen` —
rather than crash differently or return truncated output. -/
theorem applyEq_short_insufficient (fL fM fH : DesignedFilter ℝ) (audio : List ℝ)
    (g1 g2 g3 : ℝ) (hb : fL.b.length = 5) (ha : fL.a.length = 5)
    (hlen : audio.length ≤ 15) :
    apply_eq fL fM fH audio 44100 g1 g2 g3 = Except.error (EqError.inputTooShort 15) := by
  have hf := filtfilt_short5 fL audio hb ha hlen
  norm_num [apply_eq, applyEqCore, mixedBuffer, butterCheck, hf]

/-- Witness for C5: five samples at 44100 Hz with 5-tap filters fail with
the too-short error. -/
theorem applyEq_short_insufficient_witness :
    wFilt5R.b.length = 5 ∧ wFilt5R.a.length = 5
    ∧ (List.replicate 5 (0 : ℝ)).length ≤ 15
    ∧ apply_eq wFilt5R wFiltR wFiltR (List.replicate 5 (0 : ℝ)) 44100 0 0 0
        = Except.error (EqError.inputTooShort 15) :=
  ⟨rfl, rfl, by norm_num,
   applyEq_short_insufficient wFilt5R wFiltR wFiltR (List.replicate 5 (0 : ℝ))
     0 0 0 rfl rfl (by norm_num)⟩

/-! ### The empty buffer -/

/-- C6, counterexample.  On a zero-length buffer the normalization step is
not a no-op returning a zero-length buffer: `np.max` of an empty array
raises (`EqError.emptyMax`), so the step fails. -/
theorem normalize_empty_cex :
    normalize ([] : List ℚ) = Except.error EqError.emptyMax
    ∧ normalize ([] : List ℚ) ≠ Except.ok ([] : List ℚ) := by
  constructor
  · rfl
  · intro h
    cases h

/-- C6, amended.  For a zero-length buffer the normalization step fails with
numpy's empty-reduction error rather than returning a zero-length buffer;
in the full pipeline a zero-length input never reaches normalization, since
`filtfilt` already fails its minimum-length check (`0 <= padlen`). -/
theorem normalize_empty_amended (fL fM fH : DesignedFilter ℚ) (g1 g2 g3 : ℚ) :
    normalize ([] : List ℚ) = Except.error EqError.emptyMax
    ∧ applyEqCore fL fM fH ([] : List ℚ) 44100 g1 g2 g3
        = Except.error (EqError.inputTooShort (3 * max fL.a.length fL.b.length)) := by
  constructor
  · rfl
  · have hf : filtfilt fL ([] : List ℚ)
        = Except.error (EqError.inputTooShort (3 * max fL.a.length fL.b.length)) := by
      unfold filtfilt
      simp
    norm_num [applyEqCore, mixedBuffer, butterCheck, hf]

/-! ### Silence in, silence out -/

theorem getD_zero_of_allZero : ∀ (xs : List α), (∀ v ∈ xs, v = 0) → ∀ (k : ℕ), xs.getD k 0 = 0
  | [], _, k => by cases k <;> rfl
  | v :: vs, h, 0 => h v (List.mem_cons_self v vs)
  | v :: vs, h, k + 1 =>
    getD_zero_of_allZero vs (fun w hw => h w (List.mem_cons_of_mem v hw)) k

theorem getLastD_zero : ∀ (xs : List α) (d : α), d = 0 → (∀ v ∈ xs, v = 0) → xs.getLastD d = 0
  | [], _, hd, _ => hd
  | v :: vs, d, _, h => by
    rw [List.getLastD_cons]
    exact getLastD_zero vs v (h v (List.mem_cons_self v vs))
      (fun w hw => h w (List.mem_cons_of_mem v hw))

theorem df2tStep_zero (bp ap z : List α) (hz : ∀ v ∈ z, v = 0) :
    (df2tStep bp ap z 0).1 = 0 ∧ ∀ w ∈ (df2tStep bp ap z 0).2, w = 0 := by
  have h0 : ∀ k, z.getD k 0 = 0 := getD_zero_of_allZero z hz
  simp only [List.getD_eq_getElem?_getD] at h0
  constructor
  · simp [df2tStep, h0]
  · intro w hw
    simp only [df2tStep, List.mem_map, List.mem_range] at hw
    obtain ⟨i, hi, rfl⟩ := hw
    simp [h0]

theorem lfilterGo_zero (bp ap : List α) :
    ∀ (z x : List α), (∀ v ∈ z, v = 0) → (∀ v ∈ x, v = 0) → lfilterGo bp ap z x = x
  | _, [], _, _ => rfl
  | z, v :: vs, hz, hx => by
    have hv : v = 0 := hx v (List.mem_cons_self v vs)
    subst hv
    have hd := df2tStep_zero bp ap z hz
    show (df2tStep bp ap z 0).1 :: lfilterGo bp ap (df2tStep bp ap z 0).2 vs = 0 :: vs
    rw [hd.1, lfilterGo_zero bp ap (df2tStep bp ap z 0).2 vs hd.2
      (fun w hw => hx w (List.mem_cons_of_mem 0 hw))]

theorem lfilter_zero (b a x zi : List α) (hzi : ∀ v ∈ zi, v = 0)
    (hx : ∀ v ∈ x, v = 0) : lfilter b a x zi = x := by
  unfold lfilter
  exact lfilterGo_zero _ _ zi x hzi hx

theorem oddExt_zero (x : List α) (n : ℕ) (h : ∀ v ∈ x, v = 0) :
    ∀ v ∈ oddExt x n, v = 0 := by
  unfold oddExt
  split
  · exact h
  · cases x with
    | nil => intro v hv; cases hv
    | cons x0 xs =>
      intro v hv
      have h0 : x0 = 0 := h x0 (List.mem_cons_self x0 xs)
      simp only [List.mem_append, List.mem_map, List.mem_reverse] at hv
      rcases hv with (hv | hv) | hv
      · obtain ⟨w, hw, rfl⟩ := hv
        have hwx : w ∈ x0 :: xs := List.mem_of_mem_drop (List.mem_of_mem_take hw)
        rw [h0, h w hwx]
        ring
      · exact h v hv
      · obtain ⟨w, hw, rfl⟩ := hv
        have hwx : w ∈ x0 :: xs :=
          List.mem_reverse.mp (List.mem_of_mem_drop (List.mem_of_mem_take hw))
        rw [getLastD_zero (x0 :: xs) x0 h0 h, h w hwx]
        ring

theorem filtfilt_ok_pos (f : DesignedFilter α) (x y : List α)
    (h : filtfilt f x = Except.ok y) : 3 * max f.a.length f.b.length < x.length := by
  unfold filtfilt at h
  by_cases hlen : x.length ≤ 3 * max f.a.length f.b.length
  · rw [if_pos hlen] at h
    cases h
  · exact lt_of_not_le hlen

theorem filtfilt_error_shape (f : DesignedFilter α) (x : List α) (e : EqError)
    (h : filtfilt f x = Except.error e) :
    e = EqError.inputTooShort (3 * max f.a.length f.b.length) := by
  unfold filtfilt at h
  by_cases hlen : x.length ≤ 3 * max f.a.length f.b.length
  · rw [if_pos hlen] at h
    cases h
    rfl
  · rw [if_neg hlen] at h
    cases h

theorem butterCheck_error_shape (wn : List α) (e : EqError)
    (h : butterCheck wn = Except.error e) : e = EqError.invalidWn := by
  unfold butterCheck at h
  split at h
  · cases h
  · cases h; rfl

theorem filtfilt_ok_allZero (f : DesignedFilter α) (x y : List α)
    (hx : ∀ v ∈ x, v = 0) (h : filtfilt f x = Except.ok y) : ∀ v ∈ y, v = 0 := by
  unfold filtfilt at h
  by_cases hlen : x.length ≤ 3 * max f.a.length f.b.length
  · rw [if_pos hlen] at h
    cases h
  · rw [if_neg hlen] at h
    simp only [Except.ok.injEq] at h
    subst h
    have hext : ∀ v ∈ oddExt x (3 * max f.a.length f.b.length), v = 0 :=
      oddExt_zero x _ hx
    have hzi1 : ∀ v ∈ f.zi.map
        (fun z => z * (oddExt x (3 * max f.a.length f.b.length)).getD 0 0), v = 0 := by
      intro v hv
      simp only [List.mem_map] at hv
      obtain ⟨z, hz, rfl⟩ := hv
      rw [getD_zero_of_allZero _ hext 0, mul_zero]
    rw [lfilter_zero _ _ _ _ hzi1 hext]
    rw [getLastD_zero _ 0 rfl hext]
    have hzi2 : ∀ v ∈ f.zi.map (fun z => z * (0 : α)), v = 0 := by
      intro v hv
      simp only [List.mem_map] at hv
      obtain ⟨z, hz, rfl⟩ := hv
      exact mul_zero z
    have hrev : ∀ v ∈ (oddExt x (3 * max f.a.length f.b.length)).reverse, v = 0 :=
      fun v hv => hext v (List.mem_reverse.mp hv)
    rw [lfilter_zero _ _ _ _ hzi2 hrev]
    intro v hv
    exact hext v (List.mem_reverse.mp (List.mem_reverse.mp
      (List.mem_of_mem_drop (List.mem_of_mem_take hv))))

theorem gainScale_zero (xs : List α) (g : α) (h : ∀ v ∈ xs, v = 0) :
    ∀ v ∈ gainScale xs g, v = 0 := by
  intro v hv
  simp only [gainScale, List.mem_map] at hv
  obtain ⟨w, hw, rfl⟩ := hv
  rw [h w hw, zero_mul]

theorem zipWith_add_zero (u v : List α) (hu : ∀ w ∈ u, w = 0) (hv : ∀ w ∈ v, w = 0) :
    ∀ w ∈ List.zipWith (fun p q => p + q) u v, w = 0 := by
  induction u generalizing v with
  | nil => intro w hw; cases hw
  | cons a u ih =>
    cases v with
    | nil => intro w hw; cases hw
    | cons b v =>
      intro w hw
      rcases List.mem_cons.mp hw with rfl | hw2
      · rw [hu a (List.mem_cons_self a u), hv b (List.mem_cons_self b v)]
        norm_num
      · exact ih v (fun q hq => hu q (List.mem_cons_of_mem a hq))
          (fun q hq => hv q (List.mem_cons_of_mem b hq)) w hw2

theorem mix3_zero (u v w : List α) (hu : ∀ q ∈ u, q = 0) (hv : ∀ q ∈ v, q = 0)
    (hw : ∀ q ∈ w, q = 0) : ∀ q ∈ mix3 u v w, q = 0 := by
  unfold mix3
  exact zipWith_add_zero _ _ (zipWith_add_zero u v hu hv) hw

theorem foldl_max_zero : ∀ (l : List α), (∀ w ∈ l, w = 0) → ∀ (i : α), i = 0 → l.foldl max i = 0
  | [], _, _, hi => hi
  | a :: l, h, i, hi => by
    rw [List.foldl_cons]
    exact foldl_max_zero l (fun w hw => h w (List.mem_cons_of_mem a hw)) (max i a)
      (by rw [hi, h a (List.mem_cons_self a l), max_self])

theorem normalize_allZero (xs : List α) (h : ∀ v ∈ xs, v = 0) (hne : xs ≠ []) :
    normalize xs = Except.ok xs := by
  cases xs with
  | nil => exact absurd rfl hne
  | cons v vs =>
    have hv : v = 0 := h v (List.mem_cons_self v vs)
    have habs : ∀ w ∈ (vs.map fun q => |q|), w = 0 := by
      intro w hw
      simp only [List.mem_map] at hw
      obtain ⟨q, hq, rfl⟩ := hw
      rw [h q (List.mem_cons_of_mem v hq), abs_zero]
    have hmax : ((vs.map fun q => |q|).foldl max |v|) = 0 :=
      foldl_max_zero _ habs _ (by rw [hv, abs_zero])
    unfold normalize
    have hnp : npMax ((v :: vs).map fun q => |q|)
        = Except.ok ((vs.map fun q => |q|).foldl max |v|) := rfl
    rw [hnp, hmax]
    simp only []
    rw [if_neg (by norm_num : ¬ (1 : α) < 0)]

theorem mixedBuffer_ok_allZero (fL fM fH : DesignedFilter α) (audio m : List α)
    (sr g1 g2 g3 : α) (hx : ∀ v ∈ audio, v = 0)
    (h : mixedBuffer fL fM fH audio sr g1 g2 g3 = Except.ok m) :
    ∀ v ∈ m, v = 0 := by
  simp only [mixedBuffer] at h
  repeat' split at h
  all_goals try cases h
  rename_i x2 yL hL x1 yM hM x0 yH hH
  exact mix3_zero _ _ _
    (gainScale_zero yL g1 (filtfilt_ok_allZero fL audio yL hx hL))
    (gainScale_zero yM g2 (filtfilt_ok_allZero fM audio yM hx hM))
    (gainScale_zero yH g3 (filtfilt_ok_allZero fH audio yH hx hH))

theorem mixedBuffer_error_shape (fL fM fH : DesignedFilter α) (audio : List α)
    (sr g1 g2 g3 : α) (e : EqError)
    (h : mixedBuffer fL fM fH audio sr g1 g2 g3 = Except.error e) :
    e = EqError.invalidWn ∨ ∃ p, e = EqError.inputTooShort p := by
  simp only [mixedBuffer] at h
  repeat' split at h
  all_goals try cases h
  all_goals first
    | exact Or.inl (butterCheck_error_shape _ _ (by assumption))
    | exact Or.inr ⟨_, filtfilt_error_shape _ _ _ (by assumption)⟩

theorem mixedBuffer_ok_ne_nil (fL fM fH : DesignedFilter α) (audio m : List α)
    (sr g1 g2 g3 : α)
    (h : mixedBuffer fL fM fH audio sr g1 g2 g3 = Except.ok m) : audio ≠ [] := by
  intro hnil
  subst hnil
  simp only [mixedBuffer] at h
  repeat' split at h
  all_goals try cases h
  rename_i x2 yL hL x1 yM hM x0 yH hH
  have := filtfilt_ok_pos fL [] yL hL
  simp at this

/-- C7, amended.  For every filter design, sample rate and gain triple, an
all-zero input either succeeds with the all-zero output of the same length
(whenever the pipeline succeeds, in particular whenever the buffer is longer
than every band's `padlen`), or fails with one of `butter`'s invalid-cutoff
error or `filtfilt`'s too-short error; no numeric-overflow failure exists on
this path (the code performs no finiteness check, and in exact arithmetic an
all-zero buffer produces only zeros, whose peak 0 skips the division). -/
theorem applyEq_zero_input (fL fM fH : DesignedFilter α) (sr g1 g2 g3 : α) (n : ℕ) :
    (∀ out, applyEqCore fL fM fH (List.replicate n 0) sr g1 g2 g3 = Except.ok out →
        out = List.replicate n 0)
    ∧ (∀ e, applyEqCore fL fM fH (List.replicate n 0) sr g1 g2 g3 = Except.error e →
        e = EqError.invalidWn ∨ ∃ p, e = EqError.inputTooShort p) := by
  have hzero : ∀ v ∈ List.replicate n (0 : α), v = 0 :=
    fun v hv => List.eq_of_mem_replicate hv
  constructor
  · intro out h
    unfold applyEqCore at h
    split at h
    · cases h
    · rename_i processed hp
      have hz := mixedBuffer_ok_allZero fL fM fH _ processed sr g1 g2 g3 hzero hp
      have hlen := mixedBuffer_ok_length fL fM fH _ processed sr g1 g2 g3 hp
      have hanil := mixedBuffer_ok_ne_nil fL fM fH _ processed sr g1 g2 g3 hp
      have hn : n ≠ 0 := by
        intro h0
        subst h0
        exact hanil rfl
      have hne : processed ≠ [] := by
        intro h0
        rw [h0] at hlen
        simp at hlen
        exact hn hlen.symm
      rw [normalize_allZero processed hz hne] at h
      cases h
      exact List.eq_replicate_iff.mpr ⟨by simpa using hlen, hz⟩
  · intro e h
    unfold applyEqCore at h
    split at h
    · rename_i e2 hm
      cases h
      exact mixedBuffer_error_shape fL fM fH _ sr g1 g2 g3 _ hm
    · rename_i processed hp
      have hz := mixedBuffer_ok_allZero fL fM fH _ processed sr g1 g2 g3 hzero hp
      have hlen := mixedBuffer_ok_length fL fM fH _ processed sr g1 g2 g3 hp
      have hanil := mixedBuffer_ok_ne_nil fL fM fH _ processed sr g1 g2 g3 hp
      have hn : n ≠ 0 := by
        intro h0
        subst h0
        exact hanil rfl
      have hne : processed ≠ [] := by
        intro h0
        rw [h0] at hlen
        simp at hlen
        exact hn hlen.symm
      rw [normalize_allZero processed hz hne] at h
      cases h

/-- C7, counterexample to the claim as stated: a 5-sample all-zero buffer
(with the tap-list shapes `butter` order 4 produces) does not produce an
all-zero output buffer — the pipeline fails with the too-short error before
producing anything. -/
theorem applyEq_zero_len5_cex :
    applyEqCore wFilt5 wFilt9 wFilt5 (List.replicate 5 (0 : ℚ)) 44100 1 1 1
      = Except.error (EqError.inputTooShort 15)
    ∧ applyEqCore wFilt5 wFilt9 wFilt5 (List.replicate 5 (0 : ℚ)) 44100 1 1 1
      ≠ Except.ok (List.replicate 5 (0 : ℚ)) := by
  have h : applyEqCore wFilt5 wFilt9 wFilt5 (List.replicate 5 (0 : ℚ)) 44100 1 1 1
      = Except.error (EqError.inputTooShort 15) := by
    have hf := filtfilt_short5 wFilt5 (List.replicate 5 (0 : ℚ)) rfl rfl (by norm_num)
    norm_num [applyEqCore, mixedBuffer, butterCheck, hf]
  refine ⟨h, ?_⟩
  rw [h]
  intro hc
  cases hc

/-! ### The 0 dB gain is the identity -/

theorem dbToLin_zero : dbToLin 0 = 1 := by
  unfold dbToLin
  rw [zero_div, Real.rpow_zero]

/-- C8.  The source's dB-to-linear conversion sends 0 dB to exactly 1
(`10 ** (0/20) = 1`), so the gain stage at 0 dB leaves every sample of any
band buffer unchanged — it is a pure elementwise multiply with no other
effect. -/
theorem gain_zero_db_identity :
    dbToLin 0 = 1 ∧ ∀ xs : List ℝ, gainScale xs (dbToLin 0) = xs := by
  refine ⟨dbToLin_zero, ?_⟩
  intro xs
  rw [dbToLin_zero]
  unfold gainScale
  simp

/-! ### The caller's buffer is never written -/

theorem extend_trans {s1 s2 s3 : NpState α}
    (h12 : ∃ t, s2.arrays = s1.arrays ++ t)
    (h23 : ∃ t, s3.arrays = s2.arrays ++ t) :
    ∃ t, s3.arrays = s1.arrays ++ t := by
  obtain ⟨t1, h1⟩ := h12
  obtain ⟨t2, h2⟩ := h23
  exact ⟨t1 ++ t2, by rw [h2, h1, List.append_assoc]⟩

theorem alloc_extend (s : NpState α) (v : List α) :
    ∃ t, ((alloc s v).1).arrays = s.arrays ++ t :=
  ⟨[v], rfl⟩

theorem filtGainSt_extend (f : DesignedFilter α) (g : α) (s : NpState α) (src : ℕ) :
    ∃ t, ((filtGainSt f g s src).1).arrays = s.arrays ++ t := by
  simp only [filtGainSt]
  split
  · exact ⟨[], (List.append_nil _).symm⟩
  · exact extend_trans (alloc_extend _ _) (alloc_extend _ _)

theorem normalizeSt_extend (s : NpState α) (src : ℕ) :
    ∃ t, ((normalizeSt s src).1).arrays = s.arrays ++ t := by
  simp only [normalizeSt]
  split
  · exact alloc_extend _ _
  · split
    · exact extend_trans (alloc_extend _ _) (alloc_extend _ _)
    · exact alloc_extend _ _

theorem applyEqSt_extend (fL fM fH : DesignedFilter α) (sr g1 g2 g3 : α)
    (s : NpState α) (audioRef : ℕ) :
    ∃ t, ((applyEqSt fL fM fH sr g1 g2 g3 s audioRef).1).arrays = s.arrays ++ t := by
  simp only [applyEqSt]
  cases hb1 : butterCheck [min 250 (sr / 2 - 1) / (sr / 2)] with
  | error e => simp only [hb1]; exact ⟨[], (List.append_nil _).symm⟩
  | ok u1 =>
  simp only [hb1]
  cases hb2 : butterCheck [max 250 1 / (sr / 2), min 4000 (sr / 2 - 1) / (sr / 2)] with
  | error e => simp only [hb2]; exact ⟨[], (List.append_nil _).symm⟩
  | ok u2 =>
  simp only [hb2]
  cases hb3 : butterCheck [max 4000 1 / (sr / 2)] with
  | error e => simp only [hb3]; exact ⟨[], (List.append_nil _).symm⟩
  | ok u3 =>
  simp only [hb3]
  cases hr1 : (filtGainSt fL g1 s audioRef).2 with
  | error e => simp only [hr1]; exact filtGainSt_extend _ _ _ _
  | ok lowRef =>
  simp only [hr1]
  cases hr2 : (filtGainSt fM g2 (filtGainSt fL g1 s audioRef).1 audioRef).2 with
  | error e =>
    simp only [hr2]
    exact extend_trans (filtGainSt_extend _ _ _ _) (filtGainSt_extend _ _ _ _)
  | ok midRef =>
  simp only [hr2]
  cases hr3 : (filtGainSt fH g3
      (filtGainSt fM g2 (filtGainSt fL g1 s audioRef).1 audioRef).1 audioRef).2 with
  | error e =>
    simp only [hr3]
    exact extend_trans (extend_trans (filtGainSt_extend _ _ _ _)
      (filtGainSt_extend _ _ _ _)) (filtGainSt_extend _ _ _ _)
  | ok highRef =>
  simp only [hr3]
  exact extend_trans (extend_trans (extend_trans (extend_trans (extend_trans
    (filtGainSt_extend _ _ _ _) (filtGainSt_extend _ _ _ _)) (filtGainSt_extend _ _ _ _))
    (alloc_extend _ _)) (alloc_extend _ _)) (normalizeSt_extend _ _)

/-- C9.  `apply_eq` never writes to the caller's buffer (nor to any
previously allocated array): over the explicit array store, every array that
existed before the call reads back unchanged after the call, whether the
pipeline succeeds or fails.  Every operation the source performs allocates a
fresh array. -/
theorem applyEq_no_input_mutation (fL fM fH : DesignedFilter α) (sr g1 g2 g3 : α)
    (s : NpState α) (audioRef : ℕ) (i : ℕ) (hi : i < s.arrays.length) :
    readArr ((applyEqSt fL fM fH sr g1 g2 g3 s audioRef).1) i = readArr s i := by
  obtain ⟨t, ht⟩ := applyEqSt_extend fL fM fH sr g1 g2 g3 s audioRef
  unfold readArr
  rw [ht]
  exact List.getD_append _ _ _ _ hi

/-- Witness for C9: a store holding one caller buffer, read back unchanged
after a pipeline invocation on it. -/
theorem applyEq_no_input_mutation_witness :
    0 < (NpState.mk [[(1 : ℚ), 0, 0, 0]]).arrays.length
    ∧ readArr ((applyEqSt wFilt wFilt wFilt 44100 1 1 1 ⟨[[(1 : ℚ), 0, 0, 0]]⟩ 0).1) 0
      = readArr (⟨[[(1 : ℚ), 0, 0, 0]]⟩ : NpState ℚ) 0 :=
  ⟨by norm_num,
   applyEq_no_input_mutation wFilt wFilt wFilt 44100 1 1 1 ⟨[[(1 : ℚ), 0, 0, 0]]⟩ 0 0
     (by norm_num)⟩

/-! ### A uniform dB offset on all three gains -/

theorem gainScale_mul (xs : List α) (g k : α) :
    gainScale xs (g * k) = (gainScale xs g).map fun v => v * k := by
  unfold gainScale
  rw [List.map_map]
  simp [Function.comp, mul_assoc]

theorem zipWith_add_map_mul (u v : List α) (k : α) :
    List.zipWith (fun p q => p + q) (u.map fun x => x * k) (v.map fun x => x * k)
      = (List.zipWith (fun p q => p + q) u v).map fun x => x * k := by
  induction u generalizing v with
  | nil => simp
  | cons a u ih =>
    cases v with
    | nil => simp
    | cons b v => simp [ih, add_mul]

theorem mix3_map_mul (u v w : List α) (k : α) :
    mix3 (u.map fun x => x * k) (v.map fun x => x * k) (w.map fun x => x * k)
      = (mix3 u v w).map fun x => x * k := by
  unfold mix3
  rw [zipWith_add_map_mul, zipWith_add_map_mul]

/-- Scaling all three linear gain multipliers by `k` scales the
pre-normalization mixed buffer elementwise by `k` (the filters do not depend
on the gains, so both runs take the same branch everywhere). -/
theorem mixedBuffer_scaled (fL fM fH : DesignedFilter α) (audio : List α)
    (sr gL gM gH k : α) :
    mixedBuffer fL fM fH audio sr (gL * k) (gM * k) (gH * k)
      = Except.map (fun l => l.map fun v => v * k)
          (mixedBuffer fL fM fH audio sr gL gM gH) := by
  simp only [mixedBuffer]
  repeat' split
  all_goals simp only [Except.map]
  rw [gainScale_mul, gainScale_mul, gainScale_mul, mix3_map_mul]

theorem foldl_max_map_mul : ∀ (vs : List α) (i k : α), 0 ≤ k →
    (vs.map fun v => v * k).foldl max (i * k) = (vs.foldl max i) * k
  | [], _, _, _ => rfl
  | a :: vs, i, k, hk => by
    simp only [List.map_cons, List.foldl_cons]
    rw [← max_mul_of_nonneg i a hk]
    exact foldl_max_map_mul vs (max i a) k hk

theorem npMax_map_mul (l : List α) (M k : α) (h : npMax l = Except.ok M)
    (hk : 0 ≤ k) : npMax (l.map fun v => v * k) = Except.ok (M * k) := by
  cases l with
  | nil => cases h
  | cons v vs =>
    simp only [npMax, Except.ok.injEq] at h
    subst h
    simp only [List.map_cons, npMax, Except.ok.injEq]
    exact foldl_max_map_mul vs v k hk

/-- If the mixed buffer's peak `p` exceeds 1 both before and after an
elementwise scaling by `k > 0`, normalization erases the scaling: both runs
normalize to the same output. -/
theorem normalize_scaled (m : List α) (p k : α)
    (hp : npMax (m.map fun v => |v|) = Except.ok p)
    (hp1 : 1 < p) (hk : 0 < k) (hp2 : 1 < p * k) :
    normalize (m.map fun v => v * k) = normalize m := by
  have habs : (m.map fun v => v * k).map (fun v => |v|)
      = (m.map fun v => |v|).map fun v => v * k := by
    rw [List.map_map, List.map_map]
    refine List.map_congr_left fun v hv => ?_
    simp only [Function.comp_apply]
    rw [abs_mul, abs_of_pos hk]
  have hnp2 : npMax ((m.map fun v => v * k).map fun v => |v|) = Except.ok (p * k) := by
    rw [habs]
    exact npMax_map_mul _ p k hp (le_of_lt hk)
  unfold normalize
  simp only [hp, hnp2]
  rw [if_pos hp2, if_pos hp1]
  simp only [Except.ok.injEq]
  rw [List.map_map]
  refine List.map_congr_left fun v hv => ?_
  simp only [Function.comp_apply]
  rw [mul_div_mul_right v p (ne_of_gt hk)]

/-- C10.  Adding the same offset `c` dB to all three gains multiplies the
pre-normalization mixed buffer elementwise by exactly `10 ** (c/20)`; if the
mixed peak exceeds 1 both with and without the offset, the two final
normalized outputs of `apply_eq` are identical — the uniform gain change is
erased by peak normalization. -/
theorem applyEq_gain_offset (fL fM fH : DesignedFilter ℝ) (audio : List ℝ)
    (sr g1 g2 g3 c : ℝ) (m : List ℝ) (p : ℝ)
    (hm : mixedBuffer fL fM fH audio sr (dbToLin g1) (dbToLin g2) (dbToLin g3)
      = Except.ok m)
    (hp : npMax (m.map fun v => |v|) = Except.ok p)
    (hp1 : 1 < p) (hp2 : 1 < p * dbToLin c) :
    mixedBuffer fL fM fH audio sr (dbToLin (g1 + c)) (dbToLin (g2 + c)) (dbToLin (g3 + c))
      = Except.ok (m.map fun v => v * dbToLin c)
    ∧ apply_eq fL fM fH audio sr (g1 + c) (g2 + c) (g3 + c)
      = apply_eq fL fM fH audio sr g1 g2 g3 := by
  have hk : 0 < dbToLin c := Real.rpow_pos_of_pos (by norm_num) _
  have hsplit : ∀ g : ℝ, dbToLin (g + c) = dbToLin g * dbToLin c := by
    intro g
    unfold dbToLin
    rw [add_div, Real.rpow_add (by norm_num)]
  have ha : mixedBuffer fL fM fH audio sr
      (dbToLin (g1 + c)) (dbToLin (g2 + c)) (dbToLin (g3 + c))
      = Except.ok (m.map fun v => v * dbToLin c) := by
    rw [hsplit, hsplit, hsplit, mixedBuffer_scaled, hm]
    rfl
  refine ⟨ha, ?_⟩
  unfold apply_eq applyEqCore
  simp only [ha, hm]
  exact normalize_scaled m p (dbToLin c) hp hp1 hk hp2

/-! ### Concrete evaluation lemmas shared by the witnesses -/

theorem filtfilt_wFilt_two :
    filtfilt wFilt ([2, 0, 0, 0] : List ℚ) = Except.ok [2, 0, 0, 0] := by
  have h1 : lfilter ([1] : List ℚ) [1] [4, 4, 4, 2, 0, 0, 0, 0, 0, -2] []
      = [4, 4, 4, 2, 0, 0, 0, 0, 0, -2] := by
    norm_num [lfilter, lfilterGo, df2tStep, List.range_succ]
  have h2 : lfilter ([1] : List ℚ) [1] [-2, 0, 0, 0, 0, 0, 2, 4, 4, 4] []
      = [-2, 0, 0, 0, 0, 0, 2, 4, 4, 4] := by
    norm_num [lfilter, lfilterGo, df2tStep, List.range_succ]
  norm_num [filtfilt, oddExt, wFilt, h1, h2]

theorem mixedBuffer_wFilt_two :
    mixedBuffer wFilt wFilt wFilt ([2, 0, 0, 0] : List ℚ) 44100 1 1 1
      = Except.ok [6, 0, 0, 0] := by
  norm_num [mixedBuffer, butterCheck, filtfilt_wFilt_two, gainScale, mix3]

theorem applyEqCore_wFilt_two :
    applyEqCore wFilt wFilt wFilt ([2, 0, 0, 0] : List ℚ) 44100 1 1 1
      = Except.ok [1, 0, 0, 0] := by
  norm_num [applyEqCore, mixedBuffer_wFilt_two, normalize, npMax]

theorem applyEqCore_wFilt_zero :
    applyEqCore wFilt wFilt wFilt (List.replicate 4 (0 : ℚ)) 44100 1 1 1
      = Except.ok (List.replicate 4 (0 : ℚ)) := by
  have hrep : List.replicate 4 (0 : ℚ) = [0, 0, 0, 0] := rfl
  have h1 : lfilter ([1] : List ℚ) [1] [0, 0, 0, 0, 0, 0, 0, 0, 0, 0] []
      = [0, 0, 0, 0, 0, 0, 0, 0, 0, 0] := by
    norm_num [lfilter, lfilterGo, df2tStep, List.range_succ]
  have hf : filtfilt wFilt ([0, 0, 0, 0] : List ℚ) = Except.ok [0, 0, 0, 0] := by
    norm_num [filtfilt, oddExt, wFilt, h1]
  rw [hrep]
  norm_num [applyEqCore, mixedBuffer, butterCheck, hf, gainScale, mix3, normalize, npMax]

/-- Witness for C7 (amended): a concrete 4-sample all-zero run that succeeds
and returns the all-zero buffer. -/
theorem applyEq_zero_input_witness :
    applyEqCore wFilt wFilt wFilt (List.replicate 4 (0 : ℚ)) 44100 1 1 1
      = Except.ok (List.replicate 4 (0 : ℚ))
    ∧ List.replicate 4 (0 : ℚ) = List.replicate 4 0 :=
  ⟨applyEqCore_wFilt_zero,
   (applyEq_zero_input wFilt wFilt wFilt 44100 1 1 1 4).1 _ applyEqCore_wFilt_zero⟩

/-- Witness for C1: a concrete successful run of the pipeline on a 4-sample
rational buffer, on which the conclusion of the length theorem is checked. -/
theorem applyEq_length_preserved_witness :
    applyEqCore wFilt wFilt wFilt ([2, 0, 0, 0] : List ℚ) 44100 1 1 1
      = Except.ok [1, 0, 0, 0]
    ∧ ([1, 0, 0, 0] : List ℚ).length = ([2, 0, 0, 0] : List ℚ).length :=
  ⟨applyEqCore_wFilt_two,
   applyEq_length_preserved wFilt wFilt wFilt [2, 0, 0, 0] [1, 0, 0, 0]
     44100 1 1 1 applyEqCore_wFilt_two⟩

/-- Witness for C2: on the same concrete run, every output sample has
absolute value at most 1. -/
theorem applyEq_peak_le_one_witness :
    applyEqCore wFilt wFilt wFilt ([2, 0, 0, 0] : List ℚ) 44100 1 1 1
      = Except.ok [1, 0, 0, 0]
    ∧ ∀ y ∈ ([1, 0, 0, 0] : List ℚ), |y| ≤ 1 :=
  ⟨applyEqCore_wFilt_two,
   applyEq_peak_le_one wFilt wFilt wFilt [2, 0, 0, 0] [1, 0, 0, 0]
     44100 1 1 1 applyEqCore_wFilt_two⟩

theorem mixedBuffer_wFiltR_two :
    mixedBuffer wFiltR wFiltR wFiltR ([2, 0, 0, 0] : List ℝ) 44100 1 1 1
      = Except.ok [6, 0, 0, 0] := by
  have h1 : lfilter ([1] : List ℝ) [1] [4, 4, 4, 2, 0, 0, 0, 0, 0, -2] []
      = [4, 4, 4, 2, 0, 0, 0, 0, 0, -2] := by
    norm_num [lfilter, lfilterGo, df2tStep, List.range_succ]
  have h2 : lfilter ([1] : List ℝ) [1] [-2, 0, 0, 0, 0, 0, 2, 4, 4, 4] []
      = [-2, 0, 0, 0, 0, 0, 2, 4, 4, 4] := by
    norm_num [lfilter, lfilterGo, df2tStep, List.range_succ]
  have hf : filtfilt wFiltR ([2, 0, 0, 0] : List ℝ) = Except.ok [2, 0, 0, 0] := by
    norm_num [filtfilt, oddExt, wFiltR, h1, h2]
  norm_num [mixedBuffer, butterCheck, hf, gainScale, mix3]

theorem npMax_six :
    npMax (([6, 0, 0, 0] : List ℝ).map fun v => |v|) = Except.ok 6 := by
  norm_num [npMax]

/-- Witness for C10: a concrete run (passthrough filters, peak 6 > 1) with
offset 0 dB, on which both conjuncts of the offset theorem are checked. -/
theorem applyEq_gain_offset_witness :
    (mixedBuffer wFiltR wFiltR wFiltR ([2, 0, 0, 0] : List ℝ) 44100
        (dbToLin 0) (dbToLin 0) (dbToLin 0) = Except.ok [6, 0, 0, 0])
    ∧ (1 : ℝ) < 6
    ∧ (mixedBuffer wFiltR wFiltR wFiltR ([2, 0, 0, 0] : List ℝ) 44100
        (dbToLin (0 + 0)) (dbToLin (0 + 0)) (dbToLin (0 + 0))
        = Except.ok (([6, 0, 0, 0] : List ℝ).map fun v => v * dbToLin 0)
      ∧ apply_eq wFiltR wFiltR wFiltR ([2, 0, 0, 0] : List ℝ) 44100 (0 + 0) (0 + 0) (0 + 0)
        = apply_eq wFiltR wFiltR wFiltR ([2, 0, 0, 0] : List ℝ) 44100 0 0 0) := by
  have hm : mixedBuffer wFiltR wFiltR wFiltR ([2, 0, 0, 0] : List ℝ) 44100
      (dbToLin 0) (dbToLin 0) (dbToLin 0) = Except.ok [6, 0, 0, 0] := by
    rw [dbToLin_zero]
    exact mixedBuffer_wFiltR_two
  refine ⟨hm, by norm_num, ?_⟩
  exact applyEq_gain_offset wFiltR wFiltR wFiltR [2, 0, 0, 0] 44100 0 0 0 0 [6, 0, 0, 0] 6
    hm npMax_six (by norm_num) (by rw [dbToLin_zero]; norm_num)

/-- Witness for C3: the normalization contract evaluated on the concrete
buffer `[2, -1]`, whose peak is 2. -/
theorem normalize_peak_spec_witness :
    ([2, -1] : List ℚ) ≠ []
    ∧ ∃ m, npMax (([2, -1] : List ℚ).map fun v => |v|) = Except.ok m
      ∧ (∀ x ∈ ([2, -1] : List ℚ), |x| ≤ m)
      ∧ (∃ x ∈ ([2, -1] : List ℚ), |x| = m)
      ∧ (1 < m → normalize ([2, -1] : List ℚ)
          = Except.ok (([2, -1] : List ℚ).map fun v => v / m))
      ∧ (¬ 1 < m → normalize ([2, -1] : List ℚ) = Except.ok ([2, -1] : List ℚ)) :=
  ⟨by simp, normalize_peak_spec [2, -1] (by simp)⟩

end SimpleEq
